import Mathlib

/-!
Formal model of the numerical core of the UPLC-code chromatography pipeline:
baseline estimation (`src/bg_corr.py`, `Chromatogram.backgroundsubstraction` in
`src/UPLC_CEC.py`), peak-window segmentation and merging
(`Chromatogram._assign_peak_windows`), per-window mixture fitting control flow
(`Chromatogram._estimate_peak_params`), linear calibration
(`src/hplc/cal_curves.py` and the calibration block of `src/UPLC_CEC.py`), and
concentration resolution (`src/hplc/calc_conc.py` and `src/UPLC_CEC.py`).

Python/numpy floating-point values are modelled as exact rationals or reals;
`np.round` / `round` are modelled by exact round-half-to-even.  Definitions
come first, followed by all lemmas and theorems.
-/

namespace UPLC


/-- Round-half-to-even of a scalar to an integer, the tie-breaking rule used by
both numpy's `np.round` and Python's built-in `round`. -/
def roundHalfEven {α : Type} [LinearOrderedField α] [FloorRing α] [DecidableEq α]
    (x : α) : ℤ :=
  if Int.fract x = 1 / 2 then (if Even ⌊x⌋ then ⌊x⌋ else ⌊x⌋ + 1) else round x

/-- Rounding to `d` decimal places, as in `np.round(x, decimals=d)` and
Python's `round(x, d)`. -/
def roundDec {α : Type} [LinearOrderedField α] [FloorRing α] [DecidableEq α]
    (d : ℕ) (x : α) : α :=
  ((roundHalfEven (x * 10 ^ d) : ℤ) : α) / 10 ^ d

section Smoothing

variable {α : Type} [LinearOrderedField α]

/-- The body of one in-place update of the smoothing pass in `src/bg_corr.py`
(lines 24–27): `tform_new[j] = min(tform_new[j], 0.5*(tform_new[j+i] +
tform_new[j-i]))`.  All three reads are from the buffer currently being
written. -/
def bgStep (i : ℕ) (cur : List α) (j : ℕ) : List α :=
  cur.set j (min (cur.getD j 0) ((cur.getD (j + i) 0 + cur.getD (j - i) 0) / 2))

/-- Partial in-place pass: the first `k` updates (`j = i, i+1, ..., i+k-1`). -/
def bgPassAux (i : ℕ) (t : List α) (k : ℕ) : List α :=
  (List.range' i k).foldl (bgStep i) t

/-- One full smoothing pass of `src/bg_corr.py` at half-width `i`:
`for j in range(i, len(tform) - i)` applying `bgStep` to a single buffer. -/
def bgPass (i : ℕ) (t : List α) : List α :=
  bgPassAux i t (t.length - 2 * i)

/-- The full smoothing loop of `src/bg_corr.py` (lines 22–27): pass half-widths
run over `i = 1 .. n_iter`. -/
def bgSmooth (iterations : ℕ) (t : List α) : List α :=
  (List.range' 1 iterations).foldl (fun b i => bgPass i b) t

/-- One smoothing pass over a fresh buffer: every right-hand-side value is read
from the buffer as it stood at the start of the pass.  This is the loop body of
`Chromatogram.backgroundsubstraction` (`src/UPLC_CEC.py` lines 154–158), which
writes `intensity_transf_new` while reading only `intensity_transf`. -/
def freshPass (i : ℕ) (t : List α) : List α :=
  (List.range t.length).map (fun j =>
    if i ≤ j ∧ j + i < t.length then
      min (t.getD j 0) ((t.getD (j + i) 0 + t.getD (j - i) 0) / 2)
    else t.getD j 0)

/-- The smoothing loop of `Chromatogram.backgroundsubstraction`
(`src/UPLC_CEC.py` lines 153–158): pass half-widths run over
`il = 0 .. num_iterations - 1`, each over a fresh buffer. -/
def uplcSmooth (numIterations : ℕ) (t : List α) : List α :=
  (List.range numIterations).foldl (fun b i => freshPass i b) t

/-- Smoothing loop as the specification describes it: half-widths
`iter = 1 .. iterations`, and on each pass every right-hand-side value comes
from the buffer as it stood at the start of that pass. -/
def specSmooth (iterations : ℕ) (t : List α) : List α :=
  (List.range' 1 iterations).foldl (fun b i => freshPass i b) t

end Smoothing

noncomputable section BaselinePipeline

open scoped Classical

/-- numpy's `np.heaviside(x, 0)`: zero for negative arguments, the supplied
second argument (here `0`) at zero, one for positive arguments. -/
def heaviside (x : ℝ) : ℝ :=
  if x < 0 then 0 else if x = 0 then 0 else 1

/-- numpy's `np.median` of a one-dimensional array: sort ascending, take the
middle element for odd length and the mean of the two middle elements for even
length. -/
def npMedian (l : List ℝ) : ℝ :=
  let s := l.mergeSort (fun a b => decide (a ≤ b))
  if l.length % 2 = 1 then s.getD (l.length / 2) 0
  else (s.getD (l.length / 2 - 1) 0 + s.getD (l.length / 2) 0) / 2

/-- The shift of `perform_background_correction` (`src/bg_corr.py` lines
10–14): the median of the negative samples when any exist, else `0`. -/
def bgShift (absorbance : List ℝ) : ℝ :=
  if absorbance.any (fun a => decide (a < 0)) then
    npMedian (absorbance.filter (fun a => decide (a < 0)))
  else 0

/-- The log-log-square-root compression
`np.log(np.log(np.sqrt(x + 1) + 1) + 1)` (`src/bg_corr.py` line 17). -/
def lls (x : ℝ) : ℝ :=
  Real.log (Real.log (Real.sqrt (x + 1) + 1) + 1)

/-- The inverse transform `(np.exp(np.exp(t) - 1) - 1)**2 - 1`
(`src/bg_corr.py` line 30). -/
def llsInv (t : ℝ) : ℝ :=
  (Real.exp (Real.exp t - 1) - 1) ^ 2 - 1

/-- Model of `perform_background_correction` (`src/bg_corr.py`), with the
iteration count as a parameter (the source hard-codes `n_iter = 20`): shift by
the median of negative samples, clip with `heaviside`, compress, run the
in-place smoothing passes at half-widths `1 .. nIter`, invert, subtract and
round to 9 decimals.  Returns `(baseline_corrected, baseline)`. -/
def performBGCore (nIter : ℕ) (absorbance : List ℝ) : List ℝ × List ℝ :=
  let shift := bgShift absorbance
  let shifted := absorbance.map (fun a => (a - shift) * heaviside (a - shift))
  let tform := bgSmooth nIter (shifted.map lls)
  let invTform := tform.map llsInv
  let corrected := (shifted.zip invTform).map (fun p => roundDec 9 (p.1 - p.2))
  let baseline := invTform.map (fun b => b + shift)
  (corrected, baseline)

/-- Function `perform_background_correction` as shipped, with `n_iter = 20`. -/
def perform_background_correction (absorbance : List ℝ) : List ℝ × List ℝ :=
  performBGCore 20 absorbance

/-- Model of `Chromatogram.backgroundsubstraction` (`src/UPLC_CEC.py` lines
142–163): clip negatives with `heaviside` (no shift), compress, run the
fresh-buffer smoothing passes at half-widths `0 .. num_iterations - 1`,
invert; the corrected trace is `intensity_old - background` exactly (no
rounding).  Returns `(corrected, background)`. -/
def backgroundsubstraction (intensity : List ℝ) (numIterations : ℕ) :
    List ℝ × List ℝ :=
  let clipped := intensity.map (fun a => a * heaviside a)
  let tform := uplcSmooth numIterations (clipped.map lls)
  let background := tform.map llsInv
  ((intensity.zip background).map (fun p => p.1 - p.2), background)

end BaselinePipeline

/-- Python's `set(r2).issubset(r1)` on index arrays (non-strict inclusion). -/
def subsetB (r2 r1 : List ℕ) : Bool :=
  r2.all (fun x => r1.contains x)

/-- The subset-discard double loop of `Chromatogram._assign_peak_windows`
(`src/UPLC_CEC.py` lines 251–256): `valid[j]` is cleared whenever some other
range `ranges[i]` contains `ranges[j]` as a set. -/
def validMarks (ranges : List (List ℕ)) : List Bool :=
  (List.range ranges.length).foldl (fun valid i =>
    (List.range ranges.length).foldl (fun valid j =>
      if i ≠ j ∧ subsetB (ranges.getD j []) (ranges.getD i []) = true then
        valid.set j false
      else valid) valid)
    (List.replicate ranges.length true)

/-- Positions of the ranges whose validity flag is still set, in order. -/
def survivorIdx (ranges : List (List ℕ)) : List ℕ :=
  (List.range ranges.length).filter (fun j => (validMarks ranges).getD j false)

/-- Surviving ranges (`src/UPLC_CEC.py` line 259): the ranges whose validity
flag is still set, in order (the comprehension
`[r for i, r in enumerate(ranges) if valid[i] is True]`). -/
def keepValid (ranges : List (List ℕ)) : List (List ℕ) :=
  (survivorIdx ranges).map (fun j => ranges.getD j [])

/-- First `n` steps of the sequential window assignment. -/
def assignAux (survivors : List (List ℕ)) (s : ℕ) (n : ℕ) : Option ℕ :=
  (List.range n).foldl
    (fun acc i => if (survivors.getD i []).contains s then some (i + 1) else acc) none

/-- Sequential window assignment (`src/UPLC_CEC.py` lines 267–272): surviving
range number `i` writes window id `i+1` over every sample it contains, later
writes overwriting earlier ones; samples claimed by no surviving range are
dropped (`dropna`), modelled as `none`. -/
def assignWindow (survivors : List (List ℕ)) (s : ℕ) : Option ℕ :=
  assignAux survivors s survivors.length

/-- Truncation toward zero, the conversion `np.int_` applies to floats. -/
def truncToZero (x : ℚ) : ℤ :=
  if 0 ≤ x then ⌊x⌋ else -⌊-x⌋

/-- Conversion of manual retention times to sample indices
(`src/UPLC_CEC.py` lines 217–220): `deltatw = (timew[-1] - timew[0]) /
np.float64(timew.shape[0])` — the span divided by the number of samples — and
`peaks = np.int_((manual - timew[0]) / deltatw)`. -/
def manualPeakIndices (timew : List ℚ) (manual : List ℚ) : List ℤ :=
  let t0 := timew.getD 0 0
  let deltatw := (timew.getD (timew.length - 1) 0 - t0) / (timew.length : ℚ)
  manual.map (fun p => truncToZero ((p - t0) / deltatw))

/-- The boundary discard (`src/UPLC_CEC.py` lines 224–226): drop the first
candidate if (and only if) it is exactly index 0; later zero candidates are
kept. -/
def dropLeadingZero (peaks : List ℤ) : List ℤ :=
  match peaks with
  | [] => []
  | p :: rest => if p = 0 then rest else p :: rest

/-- The peak-candidate selection of `_assign_peak_windows`
(`src/UPLC_CEC.py` lines 214–226), parameterized by the automatic detector
(`scipy.signal.find_peaks`, an external collaborator): when manual positions
are supplied the detector and the normalized intensity are not consulted. -/
def peakCandidates (detector : List ℚ → List ℤ) (normInt : List ℚ)
    (timew : List ℚ) (manualPositions : Option (List ℚ)) : List ℤ :=
  let peaks := match manualPositions with
    | none => detector normInt
    | some manual => manualPeakIndices timew manual
  dropLeadingZero peaks

/-- Conversion as the specification words it: the nearest sample index using
the trace's average time step, i.e. the mean of `np.diff(timew)`, which is the
span divided by `len(timew) - 1`. -/
def nearestIndexSpec (timew : List ℚ) (p : ℚ) : ℤ :=
  round ((p - timew.getD 0 0) /
    ((timew.getD (timew.length - 1) 0 - timew.getD 0 0) / ((timew.length : ℚ) - 1)))

/-- Per-window properties built by `_assign_peak_windows` and consumed by
`_estimate_peak_params` (the `window_props` dictionary values used by the
fitting loop). -/
structure WindowProps where
  numPeaks : ℕ
  amplitude : List ℚ
  location : List ℚ
  width : List ℚ
  timeRange : List ℚ
  intensity : List ℚ
deriving DecidableEq

/-- Initial parameter vector `p0` of `_estimate_peak_params`
(`src/UPLC_CEC.py` lines 416–432): four entries per candidate peak —
amplitude, location, `max(width/4, 0.05)`, and skew `0`. -/
def buildP0 (v : WindowProps) : List ℚ :=
  (List.range v.numPeaks).foldl (fun p0 i =>
    p0 ++ [v.amplitude.getD i 0, v.location.getD i 0,
      max (v.width.getD i 0 / 4) (1 / 20), 0]) []

/-- Control flow of `_estimate_peak_params` (`src/UPLC_CEC.py` lines
412–498), with the external bounded least-squares solver
(`scipy.optimize.curve_fit` together with the `p0`/`bounds` policy it is
called with) abstracted as `solver`; `solver w = none` models the
`RuntimeError` (non-convergence) caught by the `except RuntimeError` handler.
Windows are visited in order; a window with an empty `p0` (zero candidate
peaks) is skipped silently; a window whose fit fails is recorded as a warning
and contributes no output; a successful window contributes its key and fitted
parameter vector.  Returns `(peak_props, warnings)`. -/
def estimatePeakParams (solver : WindowProps → Option (List ℚ))
    (windows : List (ℕ × WindowProps)) : List (ℕ × List ℚ) × List ℕ :=
  windows.foldl (fun acc kv =>
    if 0 < (buildP0 kv.2).length then
      match solver kv.2 with
      | some popt => (acc.1 ++ [(kv.1, popt)], acc.2)
      | none => (acc.1, acc.2 ++ [kv.1])
    else acc) ([], [])

/-- Demonstration solver: windows with two candidate peaks fail to converge,
all others fit to the parameter vector `[1, 2, 3, 4]`. -/
def fitDemoSolver : WindowProps → Option (List ℚ) :=
  fun w => if w.numPeaks = 2 then none else some [1, 2, 3, 4]

/-- Demonstration window with one candidate peak. -/
def fitDemoW1 : WindowProps := ⟨1, [5], [2], [1], [], []⟩

/-- Demonstration window with two candidate peaks. -/
def fitDemoW2 : WindowProps := ⟨2, [5, 6], [2, 3], [1, 1], [], []⟩

/-- Demonstration window with zero candidate peaks. -/
def fitDemoW3 : WindowProps := ⟨0, [], [], [], [], []⟩

/-- Demonstration batch of three windows. -/
def fitDemoWindows : List (ℕ × WindowProps) :=
  [(1, fitDemoW1), (2, fitDemoW2), (3, fitDemoW3)]

/-- Mean of the first components (`linregress` input `x`). -/
def xmean (pts : List (ℚ × ℚ)) : ℚ :=
  (pts.map Prod.fst).sum / pts.length

/-- Mean of the second components (`linregress` input `y`). -/
def ymean (pts : List (ℚ × ℚ)) : ℚ :=
  (pts.map Prod.snd).sum / pts.length

/-- Demeaned sum of squares of `x`. -/
def sxx (pts : List (ℚ × ℚ)) : ℚ :=
  (pts.map (fun p => (p.1 - xmean pts) ^ 2)).sum

/-- Demeaned cross sum. -/
def sxy (pts : List (ℚ × ℚ)) : ℚ :=
  (pts.map (fun p => (p.1 - xmean pts) * (p.2 - ymean pts))).sum

/-- Demeaned sum of squares of `y`. -/
def syy (pts : List (ℚ × ℚ)) : ℚ :=
  (pts.map (fun p => (p.2 - ymean pts) ^ 2)).sum

/-- Ordinary least-squares slope of `scipy.stats.linregress(x, y)`. -/
def linregressSlope (pts : List (ℚ × ℚ)) : ℚ :=
  sxy pts / sxx pts

/-- Ordinary least-squares intercept of `scipy.stats.linregress(x, y)`. -/
def linregressIntercept (pts : List (ℚ × ℚ)) : ℚ :=
  ymean pts - linregressSlope pts * xmean pts

/-- The squared correlation `r_value ** 2` reported from `linregress` output:
scipy computes `r = Sxy / sqrt(Sxx * Syy)` (with `r = 0` when the denominator
vanishes) and the scripts square it, so the reported quantity is
`Sxy^2 / (Sxx * Syy)` — rational, and `0` in the degenerate case, matching
scipy's guard since division by zero is zero here. -/
def linregressRsq (pts : List (ℚ × ℚ)) : ℚ :=
  (sxy pts) ^ 2 / (sxx pts * syy pts)

/-- Function `calibrate` of `src/hplc/cal_curves.py` (lines 32–34) for one compound:
`linregress(Concentration, Area)` — concentration is `x`, area is `y` — with
`Slope` and `Intercept` rounded to 2 decimals and `R-squared` (the squared
`rvalue`) rounded to 4.  `pts` are (concentration, area) pairs. -/
def calibrate (pts : List (ℚ × ℚ)) : ℚ × ℚ × ℚ :=
  (roundDec 2 (linregressSlope pts), roundDec 2 (linregressIntercept pts),
    roundDec 4 (linregressRsq pts))

/-- The calibration block of `src/UPLC_CEC.py` (lines 1004–1021):
`linregress(data_subset['area'], data_subset['concentration_mM'])` — area is
`x` and concentration is `y` — storing slope, intercept and `r_value ** 2`
unrounded.  `pts` are (concentration, area) pairs as in the claim; the code
hands them to `linregress` with area first. -/
def uplcCalibration (pts : List (ℚ × ℚ)) : ℚ × ℚ × ℚ :=
  (linregressSlope (pts.map (fun p => (p.2, p.1))),
    linregressIntercept (pts.map (fun p => (p.2, p.1))),
    linregressRsq (pts.map (fun p => (p.2, p.1))))

/-- Function `calculate_concentration` of `src/hplc/calc_conc.py` for nonzero slope:
`(area - intercept) / slope`, then `round(concentration, 2)`.  (The code has
no explicit zero-slope guard; its `isnan` check does not catch division by
zero, whose outcome in Python depends on the float type involved.) -/
def calculate_concentration (area intercept slope : ℚ) : ℚ :=
  roundDec 2 ((area - intercept) / slope)

/-- The inline concentration resolution of `src/UPLC_CEC.py` line 1180:
`(data_selection.iloc[i]['area'] - intercept) / np.abs(slope)`. -/
def uplcResolveConcentration (area intercept slope : ℚ) : ℚ :=
  (area - intercept) / |slope|

/-- One row of a converted chromatogram DataFrame, columns
(`time_min`, `step`, `intensity_mV`); the intensity is column position 2, the
column written by `df.iloc[intns, 2] = intensity[intns]`. -/
structure Row where
  time : ℚ
  step : ℚ
  intensity : ℚ
deriving DecidableEq

/-- Contents of the caller's DataFrame after `Chromatogram.__init__`
(`src/UPLC_CEC.py` lines 75–94) when the caller passes the DataFrame object
itself and no `time_window`: `dataframe = file` and `self.df = dataframe` take
no copy, so `self.df` aliases the caller's frame, and with
`baselinecorrection=True` (the default) the loop writes
`intensity[i] - intensity[0]` back into column 2 of the shared frame. -/
def initCallerFrame (df : List Row) (baselinecorrection : Bool) : List Row :=
  if baselinecorrection then
    let firstInt := (df.map Row.intensity).getD 0 0
    df.map (fun r => { r with intensity := r.intensity - firstInt })
  else df

lemma roundHalfEven_intCast {α : Type} [LinearOrderedField α] [FloorRing α] [DecidableEq α]
    (z : ℤ) : roundHalfEven (z : α) = z := by
  unfold roundHalfEven
  rw [Int.fract_intCast]
  have h2 : (0 : α) ≠ 1 / 2 := by norm_num
  rw [if_neg h2, round_intCast]

lemma roundDec_eq_self {α : Type} [LinearOrderedField α] [FloorRing α] [DecidableEq α]
    (d : ℕ) (x : α) (z : ℤ) (h : x * 10 ^ d = (z : α)) : roundDec d x = x := by
  have hp : (10 : α) ^ d ≠ 0 := by positivity
  unfold roundDec
  rw [h, roundHalfEven_intCast, ← h]
  field_simp

lemma roundDec_zero {α : Type} [LinearOrderedField α] [FloorRing α] [DecidableEq α]
    (d : ℕ) : roundDec d (0 : α) = 0 := by
  apply roundDec_eq_self d (0 : α) 0
  simp

/-- Helper lemma on `List.getD` after a `List.set` at the same position. -/
lemma getD_set_self {α : Type} (l : List α) (a : ℕ) (v z : α) (ha : a < l.length) :
    (l.set a v).getD a z = v := by
  rw [List.getD_eq_getElem?_getD, List.getElem?_set, if_pos rfl, if_pos ha]
  rfl

/-- Helper lemma on `List.getD` after a `List.set` at a different position. -/
lemma getD_set_ne {α : Type} (l : List α) (a j : ℕ) (v z : α) (hne : a ≠ j) :
    (l.set a v).getD j z = l.getD j z := by
  rw [List.getD_eq_getElem?_getD, List.getElem?_set, if_neg hne,
    ← List.getD_eq_getElem?_getD]

section SmoothingFacts

variable {α : Type} [LinearOrderedField α]

lemma length_bgStep (i : ℕ) (cur : List α) (j : ℕ) :
    (bgStep i cur j).length = cur.length := by
  simp [bgStep]

lemma length_bgPassAux (i : ℕ) (t : List α) (k : ℕ) :
    (bgPassAux i t k).length = t.length := by
  unfold bgPassAux
  induction k with
  | zero => rfl
  | succ k ih =>
      rw [List.range'_concat, List.foldl_append, List.foldl_cons, List.foldl_nil,
        length_bgStep]
      exact ih

lemma length_bgPass (i : ℕ) (t : List α) : (bgPass i t).length = t.length :=
  length_bgPassAux i t _

lemma length_bgSmooth (iterations : ℕ) (t : List α) :
    (bgSmooth iterations t).length = t.length := by
  unfold bgSmooth
  induction iterations with
  | zero => rfl
  | succ k ih =>
      rw [List.range'_concat, List.foldl_append, List.foldl_cons, List.foldl_nil,
        length_bgPass]
      exact ih

lemma length_freshPass (i : ℕ) (t : List α) : (freshPass i t).length = t.length := by
  simp [freshPass]

lemma length_uplcSmooth (numIterations : ℕ) (t : List α) :
    (uplcSmooth numIterations t).length = t.length := by
  unfold uplcSmooth
  induction numIterations with
  | zero => rfl
  | succ k ih =>
      rw [List.range_succ, List.foldl_append, List.foldl_cons, List.foldl_nil,
        length_freshPass]
      exact ih

/-- Reconstruction: mapping `getD` over the index range of a list gives the
list back. -/
lemma mapRange_getD (t : List α) :
    (List.range t.length).map (fun j => t.getD j 0) = t := by
  apply List.ext_getElem
  · simp
  · intro j h1 h2
    simp only [List.getElem_map, List.getElem_range]
    rw [List.getD_eq_getElem?_getD, List.getElem?_eq_getElem h2]
    rfl

lemma freshPass_getD (i : ℕ) (t : List α) (j : ℕ) (hj : j < t.length) :
    (freshPass i t).getD j 0 =
      if i ≤ j ∧ j + i < t.length then
        min (t.getD j 0) ((t.getD (j + i) 0 + t.getD (j - i) 0) / 2)
      else t.getD j 0 := by
  unfold freshPass
  have hj' : j < ((List.range t.length).map (fun j =>
      if i ≤ j ∧ j + i < t.length then
        min (t.getD j 0) ((t.getD (j + i) 0 + t.getD (j - i) 0) / 2)
      else t.getD j 0)).length := by simpa using hj
  rw [List.getD_eq_getElem?_getD, List.getElem?_eq_getElem hj']
  simp [List.getElem_map, List.getElem_range]

/-- Pass of width zero over a fresh buffer is the identity:
`min(t[j], (t[j] + t[j])/2) = t[j]`. -/
lemma freshPass_zero (t : List α) : freshPass 0 t = t := by
  unfold freshPass
  have : ∀ j, (if 0 ≤ j ∧ j + 0 < t.length then
      min (t.getD j 0) ((t.getD (j + 0) 0 + t.getD (j - 0) 0) / 2)
    else t.getD j 0) = t.getD j 0 := by
    intro j
    by_cases h : 0 ≤ j ∧ j + 0 < t.length
    · rw [if_pos h]
      simp [add_self_div_two]
    · rw [if_neg h]
  calc (List.range t.length).map (fun j =>
        if 0 ≤ j ∧ j + 0 < t.length then
          min (t.getD j 0) ((t.getD (j + 0) 0 + t.getD (j - 0) 0) / 2)
        else t.getD j 0)
      = (List.range t.length).map (fun j => t.getD j 0) := by
        apply List.map_congr_left
        intro j _
        exact this j
    _ = t := mapRange_getD t

lemma bgPassAux_succ (i : ℕ) (t : List α) (k : ℕ) :
    bgPassAux i t (k + 1) = bgStep i (bgPassAux i t k) (i + k) := by
  unfold bgPassAux
  rw [List.range'_concat, List.foldl_append, List.foldl_cons, List.foldl_nil,
    one_mul]

/-- Positions outside `[i, i+k)` are untouched by the first `k` updates. -/
lemma bgPassAux_untouched (i : ℕ) (t : List α) (k j : ℕ)
    (hj : j < i ∨ i + k ≤ j) :
    (bgPassAux i t k).getD j 0 = t.getD j 0 := by
  induction k with
  | zero => rfl
  | succ k ih =>
      rw [bgPassAux_succ]
      unfold bgStep
      have hne : i + k ≠ j := by omega
      rw [getD_set_ne _ _ _ _ _ hne]
      exact ih (by omega)

/-- A position already processed keeps its value under further updates. -/
lemma bgPassAux_stable (i : ℕ) (t : List α) (k k' j : ℕ) (hk : k ≤ k')
    (hj : j < i + k) :
    (bgPassAux i t k').getD j 0 = (bgPassAux i t k).getD j 0 := by
  induction k' with
  | zero =>
      have : k = 0 := by omega
      rw [this]
  | succ k' ih =>
      by_cases h : k = k' + 1
      · rw [h]
      · have hk' : k ≤ k' := by omega
        rw [bgPassAux_succ]
        unfold bgStep
        have hne : i + k' ≠ j := by omega
        rw [getD_set_ne _ _ _ _ _ hne]
        exact ih hk'

/-- The value written by update number `k` of a pass. -/
lemma bgPassAux_set_value (i : ℕ) (t : List α) (k : ℕ) (hlen : i + k < t.length) :
    (bgPassAux i t (k + 1)).getD (i + k) 0 =
      min (t.getD (i + k) 0)
        ((t.getD (i + k + i) 0 + (bgPassAux i t k).getD k 0) / 2) := by
  rw [bgPassAux_succ]
  unfold bgStep
  rw [getD_set_self _ _ _ _ (by rw [length_bgPassAux]; exact hlen)]
  rw [bgPassAux_untouched i t k (i + k) (by omega),
    bgPassAux_untouched i t k (i + k + i) (by omega)]
  have : i + k - i = k := by omega
  rw [this]

/-- Characterization of one in-place smoothing pass of `src/bg_corr.py`: an
interior sample `j` receives `min(t[j], (t[j+i] + out[j-i])/2)` where the
right neighbour is read from the start-of-pass buffer but the left neighbour
is read from the output buffer (it may already hold this pass's update);
non-interior samples are unchanged. -/
theorem bgPass_getD (i : ℕ) (hi : 1 ≤ i) (t : List α) (j : ℕ) (hj : j < t.length) :
    (bgPass i t).getD j 0 =
      if i ≤ j ∧ j + i < t.length then
        min (t.getD j 0) ((t.getD (j + i) 0 + (bgPass i t).getD (j - i) 0) / 2)
      else t.getD j 0 := by
  unfold bgPass
  by_cases h : i ≤ j ∧ j + i < t.length
  · rw [if_pos h]
    obtain ⟨h1, h2⟩ := h
    have hk0 : j = i + (j - i) := by omega
    have hk0m : j - i + 1 ≤ t.length - 2 * i := by omega
    rw [bgPassAux_stable i t (j - i + 1) (t.length - 2 * i) j hk0m (by omega)]
    rw [bgPassAux_stable i t (j - i) (t.length - 2 * i) (j - i) (by omega) (by omega)]
    calc (bgPassAux i t (j - i + 1)).getD j 0
        = (bgPassAux i t (j - i + 1)).getD (i + (j - i)) 0 := by rw [← hk0]
      _ = min (t.getD (i + (j - i)) 0)
            ((t.getD (i + (j - i) + i) 0 + (bgPassAux i t (j - i)).getD (j - i) 0) / 2) :=
          bgPassAux_set_value i t (j - i) (by omega)
      _ = min (t.getD j 0)
            ((t.getD (j + i) 0 + (bgPassAux i t (j - i)).getD (j - i) 0) / 2) := by
          rw [← hk0]
  · rw [if_neg h]
    exact bgPassAux_untouched i t _ j (by omega)

lemma getD_replicate_lt {α : Type} (c z : α) (n j : ℕ) (h : j < n) :
    (List.replicate n c).getD j z = c := by
  rw [List.getD_eq_getElem?_getD, List.getElem?_replicate, if_pos h]
  rfl

lemma bgStep_replicate (i : ℕ) (c : α) (n j : ℕ) (hj : j < n) (hji : j + i < n) :
    bgStep i (List.replicate n c) j = List.replicate n c := by
  unfold bgStep
  rw [getD_replicate_lt c 0 n j hj, getD_replicate_lt c 0 n (j + i) hji,
    getD_replicate_lt c 0 n (j - i) (by omega), add_self_div_two, min_self,
    List.set_replicate_self]

lemma bgPassAux_replicate (i : ℕ) (c : α) (n k : ℕ) (hk : k ≤ n - 2 * i) :
    bgPassAux i (List.replicate n c) k = List.replicate n c := by
  induction k with
  | zero => rfl
  | succ k ih =>
      rw [bgPassAux_succ, ih (by omega)]
      exact bgStep_replicate i c n (i + k) (by omega) (by omega)

/-- A constant buffer is a fixed point of the in-place smoothing pass. -/
lemma bgPass_replicate (i : ℕ) (c : α) (n : ℕ) :
    bgPass i (List.replicate n c) = List.replicate n c := by
  unfold bgPass
  rw [List.length_replicate]
  exact bgPassAux_replicate i c n _ le_rfl

lemma bgSmooth_replicate (iterations : ℕ) (c : α) (n : ℕ) :
    bgSmooth iterations (List.replicate n c) = List.replicate n c := by
  unfold bgSmooth
  induction iterations with
  | zero => rfl
  | succ k ih =>
      rw [List.range'_concat, List.foldl_append, List.foldl_cons, List.foldl_nil,
        ih, bgPass_replicate]

/-- A constant buffer is a fixed point of the fresh-buffer smoothing pass. -/
lemma freshPass_replicate (i : ℕ) (c : α) (n : ℕ) :
    freshPass i (List.replicate n c) = List.replicate n c := by
  unfold freshPass
  rw [List.length_replicate]
  have : ∀ j ∈ List.range n, (if i ≤ j ∧ j + i < n then
      min ((List.replicate n c).getD j 0)
        (((List.replicate n c).getD (j + i) 0 + (List.replicate n c).getD (j - i) 0) / 2)
    else (List.replicate n c).getD j 0) = c := by
    intro j hj
    have hjn : j < n := List.mem_range.mp hj
    by_cases h : i ≤ j ∧ j + i < n
    · rw [if_pos h, getD_replicate_lt c 0 n j hjn, getD_replicate_lt c 0 n (j + i) h.2,
        getD_replicate_lt c 0 n (j - i) (by omega), add_self_div_two, min_self]
    · rw [if_neg h, getD_replicate_lt c 0 n j hjn]
  rw [List.map_congr_left this]
  simp [List.map_const']

lemma uplcSmooth_replicate (numIterations : ℕ) (c : α) (n : ℕ) :
    uplcSmooth numIterations (List.replicate n c) = List.replicate n c := by
  unfold uplcSmooth
  induction numIterations with
  | zero => rfl
  | succ k ih =>
      rw [List.range_succ, List.foldl_append, List.foldl_cons, List.foldl_nil,
        ih, freshPass_replicate]

/-- The `UPLC_CEC` smoothing loop with `k+1` iterations equals the
specification-style loop with `k` iterations: its first pass has half-width
zero and is the identity, and its remaining passes use half-widths
`1 .. k` over fresh buffers. -/
lemma uplcSmooth_eq_specSmooth (k : ℕ) (t : List α) :
    uplcSmooth (k + 1) t = specSmooth k t := by
  unfold uplcSmooth specSmooth
  have h : List.range (k + 1) = 0 :: List.range' 1 k := by
    rw [List.range_eq_range', List.range'_succ]
  rw [h, List.foldl_cons, freshPass_zero]

end SmoothingFacts

section BaselineFacts

open scoped Classical

lemma mul_heaviside_of_nonneg (a : ℝ) (h : 0 ≤ a) : a * heaviside a = a := by
  unfold heaviside
  rcases eq_or_lt_of_le h with he | hl
  · rw [← he]
    simp
  · rw [if_neg (not_lt.mpr h), if_neg hl.ne']
    ring

lemma mul_heaviside_of_neg (a : ℝ) (h : a < 0) : a * heaviside a = 0 := by
  unfold heaviside
  rw [if_pos h]
  ring

/-- The inverse transform undoes the compression on nonnegative inputs. -/
lemma llsInv_lls (x : ℝ) (hx : 0 ≤ x) : llsInv (lls x) = x := by
  unfold llsInv lls
  have h1 : (0 : ℝ) ≤ x + 1 := by linarith
  have hs : 0 ≤ Real.sqrt (x + 1) := Real.sqrt_nonneg _
  have h2 : (1 : ℝ) ≤ Real.sqrt (x + 1) + 1 := by linarith
  have h3 : 0 ≤ Real.log (Real.sqrt (x + 1) + 1) := Real.log_nonneg h2
  have h4 : (0 : ℝ) < Real.log (Real.sqrt (x + 1) + 1) + 1 := by linarith
  rw [Real.exp_log h4]
  have e1 : Real.log (Real.sqrt (x + 1) + 1) + 1 - 1
      = Real.log (Real.sqrt (x + 1) + 1) := by ring
  rw [e1, Real.exp_log (by linarith : (0 : ℝ) < Real.sqrt (x + 1) + 1)]
  have e2 : Real.sqrt (x + 1) + 1 - 1 = Real.sqrt (x + 1) := by ring
  rw [e2, Real.sq_sqrt h1]
  ring

lemma npMedian_pair (a b : ℝ) (hab : a ≤ b) : npMedian [a, b] = (a + b) / 2 := by
  have hsort : List.Sorted (fun x1 x2 => x1 ≤ x2) [a, b] := by
    simp [List.sorted_cons, hab]
  simp only [npMedian, List.mergeSort_eq_self hsort]
  norm_num

lemma npMedian_replicate (n : ℕ) (hn : 0 < n) (c : ℝ) :
    npMedian (List.replicate n c) = c := by
  have hsort : List.Sorted (fun x1 x2 => x1 ≤ x2) (List.replicate n c) :=
    List.pairwise_replicate.mpr (Or.inr le_rfl)
  simp only [npMedian, List.mergeSort_eq_self hsort, List.length_replicate]
  by_cases h : n % 2 = 1
  · rw [if_pos h, getD_replicate_lt c 0 n _ (Nat.div_lt_self hn (by norm_num))]
  · rw [if_neg h, getD_replicate_lt c 0 n _ (Nat.div_lt_self hn (by norm_num)),
      getD_replicate_lt c 0 n _ (by
        have := Nat.div_lt_self hn (show 1 < 2 by norm_num)
        omega), add_self_div_two]

lemma bgShift_of_nonneg (l : List ℝ) (h : ∀ a ∈ l, 0 ≤ a) : bgShift l = 0 := by
  unfold bgShift
  rw [if_neg]
  intro hc
  obtain ⟨x, hx, hx'⟩ := List.any_eq_true.mp hc
  exact absurd (of_decide_eq_true hx') (not_lt.mpr (h x hx))

lemma bgShift_replicate_neg (n : ℕ) (hn : 0 < n) (c : ℝ) (hc : c < 0) :
    bgShift (List.replicate n c) = c := by
  unfold bgShift
  rw [if_pos, List.filter_eq_self.mpr, npMedian_replicate n hn c]
  · intro a ha
    rw [List.eq_of_mem_replicate ha]
    exact decide_eq_true hc
  · refine List.any_eq_true.mpr ⟨c, ?_, decide_eq_true hc⟩
    exact List.mem_replicate.mpr ⟨by omega, rfl⟩

/-- A pass is the identity on buffers too short to have interior samples. -/
lemma bgPass_of_short {α : Type} [LinearOrderedField α] (i : ℕ) (t : List α)
    (h : t.length ≤ 2 * i) : bgPass i t = t := by
  unfold bgPass bgPassAux
  rw [Nat.sub_eq_zero_of_le h]
  rfl

lemma bgSmooth_of_short {α : Type} [LinearOrderedField α] (iters : ℕ) (t : List α)
    (h : t.length ≤ 2) : bgSmooth iters t = t := by
  unfold bgSmooth
  induction iters with
  | zero => rfl
  | succ k ih =>
      rw [List.range'_concat, List.foldl_append, List.foldl_cons, List.foldl_nil, ih]
      exact bgPass_of_short _ t (by omega)

/-- Element access through `map` over `zip` of two lists. -/
lemma getD_map_zip {α : Type} [Inhabited α] (f : α → α → α) (z : α)
    (l1 l2 : List α) (i : ℕ) (h1 : i < l1.length) (h2 : i < l2.length) :
    ((l1.zip l2).map (fun p => f p.1 p.2)).getD i z = f (l1.getD i z) (l2.getD i z) := by
  have hz : i < (l1.zip l2).length := by
    rw [List.length_zip]
    exact lt_min h1 h2
  have hm : i < ((l1.zip l2).map (fun p => f p.1 p.2)).length := by
    rw [List.length_map]
    exact hz
  rw [List.getD_eq_getElem?_getD, List.getElem?_eq_getElem hm]
  rw [List.getD_eq_getElem?_getD, List.getElem?_eq_getElem h1]
  rw [List.getD_eq_getElem?_getD, List.getElem?_eq_getElem h2]
  simp only [List.getElem_map, List.getElem_zip, Option.getD_some]

lemma performBGCore_replicate_core (iters n : ℕ) (c s : ℝ)
    (hs : bgShift (List.replicate n c) = s) (hv : 0 ≤ c - s) :
    performBGCore iters (List.replicate n c) = (List.replicate n 0, List.replicate n c) := by
  simp only [performBGCore, hs, List.map_replicate]
  rw [mul_heaviside_of_nonneg _ hv, bgSmooth_replicate, List.map_replicate,
    llsInv_lls _ hv, List.zip_replicate, min_self, List.map_replicate,
    List.map_replicate, sub_self, roundDec_zero, sub_add_cancel]

/-- On any constant trace, `perform_background_correction` returns the trace
itself as baseline and an all-zero corrected trace, exactly. -/
lemma performBGCore_replicate (iters n : ℕ) (c : ℝ) :
    performBGCore iters (List.replicate n c) = (List.replicate n 0, List.replicate n c) := by
  rcases Nat.eq_zero_or_pos n with hn | hn
  · subst hn
    simp [performBGCore, bgShift, bgSmooth_of_short iters ([] : List ℝ) (by norm_num)]
  · rcases le_or_lt 0 c with hc | hc
    · refine performBGCore_replicate_core iters n c 0 ?_ (by linarith)
      exact bgShift_of_nonneg _ (fun a ha => by rw [List.eq_of_mem_replicate ha]; exact hc)
    · exact performBGCore_replicate_core iters n c c (bgShift_replicate_neg n hn c hc)
        (by linarith)

/-- On a constant nonnegative trace, `Chromatogram.backgroundsubstraction`
returns the trace itself as background and an all-zero corrected trace. -/
lemma backgroundsubstraction_replicate (n iters : ℕ) (c : ℝ) (hc : 0 ≤ c) :
    backgroundsubstraction (List.replicate n c) iters
      = (List.replicate n 0, List.replicate n c) := by
  simp only [backgroundsubstraction, List.map_replicate]
  rw [mul_heaviside_of_nonneg _ hc, uplcSmooth_replicate, List.map_replicate,
    llsInv_lls _ hc, List.zip_replicate, min_self, List.map_replicate, sub_self]

/-- Worked evaluation of `Chromatogram.backgroundsubstraction` on the constant
negative trace `[-1]` with one iteration. -/
lemma backgroundsubstraction_negone :
    backgroundsubstraction [(-1 : ℝ)] 1 = ([(-1 : ℝ)], [(0 : ℝ)]) := by
  simp only [backgroundsubstraction]
  rw [show List.map (fun a => a * heaviside a) [(-1 : ℝ)] = [0] from by
    simp [mul_heaviside_of_neg (-1 : ℝ) (by norm_num)]]
  have h1 : uplcSmooth 1 (List.map lls [(0 : ℝ)]) = [lls 0] := by
    unfold uplcSmooth
    rw [show List.range 1 = [0] from rfl, List.foldl_cons, List.foldl_nil]
    rw [show List.map lls [(0 : ℝ)] = [lls 0] from rfl, freshPass_zero]
  rw [h1, show List.map llsInv [lls 0] = [(0 : ℝ)] from by
    simp [llsInv_lls 0 le_rfl]]
  norm_num

/-- Worked evaluation of `perform_background_correction` on `[-4, -2]`: the
shift is the median `-3` of the negative samples, the sample below the median
is clipped to zero, and the outputs are `corrected = [0, 0]`,
`baseline = [-3, -2]`. -/
lemma performBG_example :
    perform_background_correction [(-4 : ℝ), -2] = ([0, 0], [-3, -2]) := by
  unfold perform_background_correction
  simp only [performBGCore]
  have hshift : bgShift [(-4 : ℝ), -2] = -3 := by
    unfold bgShift
    rw [if_pos (List.any_eq_true.mpr ⟨-4, by norm_num, by norm_num⟩)]
    rw [show List.filter (fun a => decide (a < 0)) [(-4 : ℝ), -2] = [(-4 : ℝ), -2] from by
      simp]
    rw [npMedian_pair (-4) (-2) (by norm_num)]
    norm_num
  rw [hshift]
  have hshifted : List.map (fun a => (a - (-3)) * heaviside (a - (-3))) [(-4 : ℝ), -2]
      = [0, 1] := by
    simp only [List.map]
    rw [show (-4 : ℝ) - (-3) = -1 by norm_num, show (-2 : ℝ) - (-3) = 1 by norm_num,
      mul_heaviside_of_neg (-1) (by norm_num), mul_heaviside_of_nonneg 1 (by norm_num)]
  rw [hshifted]
  rw [bgSmooth_of_short 20 _ (by norm_num)]
  rw [show List.map llsInv (List.map lls [(0 : ℝ), 1]) = [(0 : ℝ), 1] from by
    simp only [List.map]
    rw [llsInv_lls 0 le_rfl, llsInv_lls 1 (by norm_num)]]
  simp only [List.zip, List.zipWith, List.map]
  rw [sub_self, roundDec_zero, show (1 : ℝ) - 1 = 0 from by norm_num, roundDec_zero]
  norm_num

/-- C2, claim as stated: on each smoothing pass of the baseline estimator,
every right-hand-side value would come from the buffer as it stood at the
start of that pass.  Refuted: `src/bg_corr.py` updates the buffer in place, so
the update of sample 2 at half-width 1 sees the already-updated sample 1
(`3.25` instead of the fresh-buffer value `5.5`). -/
theorem C2_counterexample :
    bgSmooth 1 [(1 : ℚ), 10, 10, 1] ≠ specSmooth 1 [(1 : ℚ), 10, 10, 1] := by
  have hb : bgSmooth 1 [(1 : ℚ), 10, 10, 1] = [1, 11 / 2, 13 / 4, 1] := by
    simp only [bgSmooth, bgPass, bgPassAux, List.length_cons, List.length_nil]
    norm_num [List.range', List.foldl, bgStep, List.getD, min_def]
  have hs : specSmooth 1 [(1 : ℚ), 10, 10, 1] = [1, 11 / 2, 11 / 2, 1] := by
    simp only [specSmooth, freshPass]
    norm_num [List.range', List.foldl, List.map, List.getD, min_def, List.range]
  rw [hb, hs]
  intro h
  have h2 := congrArg (fun l : List ℚ => l.getD 2 0) h
  norm_num [List.getD] at h2

/-- C2 (amended): in `src/bg_corr.py` the pass index runs over
`iter = 1 .. iterations`, and each pass updates the buffer sequentially in
place: interior sample `j` becomes `min(t[j], 0.5*(t[j+iter] + out[j-iter]))`
where the right neighbour is the start-of-pass value but the left neighbour is
the output value (it may already hold this pass's update).  In
`Chromatogram.backgroundsubstraction` the passes do read a fresh buffer, but
the half-widths run over `0 .. iterations-1`, so `iterations` passes there
equal `iterations - 1` specification-style passes. -/
theorem C2_amended :
    (∀ (i : ℕ), 1 ≤ i → ∀ (t : List ℝ) (j : ℕ), j < t.length →
        (bgPass i t).getD j 0 =
          if i ≤ j ∧ j + i < t.length then
            min (t.getD j 0) ((t.getD (j + i) 0 + (bgPass i t).getD (j - i) 0) / 2)
          else t.getD j 0) ∧
    (∀ (k : ℕ) (t : List ℝ), uplcSmooth (k + 1) t = specSmooth k t) :=
  ⟨fun i hi t j hj => bgPass_getD i hi t j hj,
    fun k t => uplcSmooth_eq_specSmooth k t⟩

/-- Witness for `C2_amended` at `i = 1`, `t = [1, 10, 10, 1]`, `j = 2`. -/
theorem C2_witness :
    1 ≤ 1 ∧ (2 < ([1, 10, 10, 1] : List ℝ).length) ∧
      ((bgPass 1 [(1 : ℝ), 10, 10, 1]).getD 2 0 =
        if 1 ≤ 2 ∧ 2 + 1 < ([1, 10, 10, 1] : List ℝ).length then
          min (([1, 10, 10, 1] : List ℝ).getD 2 0)
            ((([1, 10, 10, 1] : List ℝ).getD (2 + 1) 0
              + (bgPass 1 [(1 : ℝ), 10, 10, 1]).getD (2 - 1) 0) / 2)
        else ([1, 10, 10, 1] : List ℝ).getD 2 0) ∧
      uplcSmooth 1 ([] : List ℝ) = specSmooth 0 ([] : List ℝ) :=
  ⟨le_refl 1, by norm_num,
    C2_amended.1 1 (le_refl 1) [1, 10, 10, 1] 2 (by norm_num),
    C2_amended.2 0 []⟩

/-- C3, claim as stated: `corrected[i] = raw[i] - baseline[i]` exactly for
every input.  Refuted on `perform_background_correction [-4, -2]`: the sample
`-4` lies below the shift (the median `-3` of the negative samples) and is
clipped away, so `corrected[0] = 0` while `raw[0] - baseline[0] = -1`. -/
theorem C3_counterexample :
    (perform_background_correction [(-4 : ℝ), -2]).1.getD 0 0 ≠
      [(-4 : ℝ), -2].getD 0 0 - (perform_background_correction [(-4 : ℝ), -2]).2.getD 0 0 := by
  rw [performBG_example]
  show (0 : ℝ) ≠ -4 - (-3)
  norm_num

/-- C3 (amended): in `Chromatogram.backgroundsubstraction` the invariant
`corrected[i] = raw[i] - baseline[i]` holds exactly for every input and every
iteration count.  In `perform_background_correction` it holds up to rounding
to 9 decimals whenever every raw intensity is nonnegative (so that the median
shift is zero and the heaviside clip is the identity); inputs with negative
samples can violate it, as `C3_counterexample` shows. -/
theorem C3_amended :
    (∀ (intensity : List ℝ) (iters i : ℕ), i < intensity.length →
        (backgroundsubstraction intensity iters).1.getD i 0 =
          intensity.getD i 0 - (backgroundsubstraction intensity iters).2.getD i 0) ∧
    (∀ (absorbance : List ℝ) (iters i : ℕ), (∀ a ∈ absorbance, 0 ≤ a) →
        i < absorbance.length →
        (performBGCore iters absorbance).1.getD i 0 =
          roundDec 9 (absorbance.getD i 0 - (performBGCore iters absorbance).2.getD i 0)) := by
  constructor
  · intro intensity iters i hi
    simp only [backgroundsubstraction]
    exact getD_map_zip (fun x y => x - y) 0 intensity _ i hi
      (by simp [length_uplcSmooth]; exact hi)
  · intro absorbance iters i hall hi
    have hs : bgShift absorbance = 0 := bgShift_of_nonneg _ hall
    simp only [performBGCore, hs]
    have hmap0 : absorbance.map (fun a => (a - 0) * heaviside (a - 0)) = absorbance := by
      have h1 : ∀ a ∈ absorbance, (a - 0) * heaviside (a - 0) = id a := by
        intro a ha
        rw [sub_zero]
        exact mul_heaviside_of_nonneg a (hall a ha)
      rw [List.map_congr_left h1, List.map_id]
    rw [hmap0]
    have hbase : (List.map llsInv (bgSmooth iters (List.map lls absorbance))).map
        (fun b => b + 0) = List.map llsInv (bgSmooth iters (List.map lls absorbance)) := by
      simp only [add_zero]
      exact List.map_id' _
    rw [hbase]
    exact getD_map_zip (fun x y => roundDec 9 (x - y)) 0 absorbance _ i hi
      (by simp [length_bgSmooth]; exact hi)

/-- Witness for `C3_amended`: both parts applied at explicit traces. -/
theorem C3_witness :
    (0 < ([2, 3] : List ℝ).length) ∧
      ((backgroundsubstraction [(2 : ℝ), 3] 1).1.getD 0 0 =
        [(2 : ℝ), 3].getD 0 0 - (backgroundsubstraction [(2 : ℝ), 3] 1).2.getD 0 0) ∧
      ((performBGCore 1 [(0 : ℝ), 2]).1.getD 0 0 =
        roundDec 9 ([(0 : ℝ), 2].getD 0 0 - (performBGCore 1 [(0 : ℝ), 2]).2.getD 0 0)) :=
  ⟨by norm_num,
    C3_amended.1 [2, 3] 1 0 (by norm_num),
    C3_amended.2 [0, 2] 1 0 (by norm_num) (by norm_num)⟩

/-- C8, claim as stated: for every constant input trace and every iteration
count at least 1, the baseline equals the trace and the corrected trace is all
zeros.  Refuted on `Chromatogram.backgroundsubstraction` with the constant
trace `[-1]`: the negative value is clipped before the transform, so the
background comes out as `[0]` (not `[-1]`) and the corrected trace as `[-1]`
(not `[0]`) — a unit difference, not a floating-tolerance artifact. -/
theorem C8_counterexample :
    backgroundsubstraction (List.replicate 1 (-1 : ℝ)) 1
        = (List.replicate 1 (-1 : ℝ), List.replicate 1 (0 : ℝ)) ∧
      backgroundsubstraction (List.replicate 1 (-1 : ℝ)) 1
        ≠ (List.replicate 1 (0 : ℝ), List.replicate 1 (-1 : ℝ)) := by
  have h : backgroundsubstraction (List.replicate 1 (-1 : ℝ)) 1
      = ([(-1 : ℝ)], [(0 : ℝ)]) := by
    rw [show List.replicate 1 (-1 : ℝ) = [(-1 : ℝ)] from rfl]
    exact backgroundsubstraction_negone
  constructor
  · rw [h]
    rfl
  · rw [h]
    intro hc
    have h0 : (-1 : ℝ) = 0 := by
      have := congrArg (fun p => p.1.getD 0 0) hc
      simpa using this
    norm_num at h0

/-- C8 (amended): `perform_background_correction` returns
`(corrected, baseline) = (zeros, trace)` exactly on every constant trace (the
median shift absorbs a negative constant) and any iteration count;
`Chromatogram.backgroundsubstraction` does so for every nonnegative constant
trace, but clips a negative constant to zero (see `C8_counterexample`). -/
theorem C8_amended :
    (∀ (c : ℝ) (n iters : ℕ),
        performBGCore iters (List.replicate n c)
          = (List.replicate n 0, List.replicate n c)) ∧
    (∀ (c : ℝ) (n iters : ℕ), 0 ≤ c →
        backgroundsubstraction (List.replicate n c) iters
          = (List.replicate n 0, List.replicate n c)) :=
  ⟨fun c n iters => performBGCore_replicate iters n c,
    fun c n iters hc => backgroundsubstraction_replicate n iters c hc⟩

/-- Witness for `C8_amended` at the constant trace of value 5, length 2. -/
theorem C8_witness :
    ((0 : ℝ) ≤ 5) ∧
      performBGCore 3 (List.replicate 2 (5 : ℝ))
        = (List.replicate 2 (0 : ℝ), List.replicate 2 (5 : ℝ)) ∧
      backgroundsubstraction (List.replicate 2 (5 : ℝ)) 3
        = (List.replicate 2 (0 : ℝ), List.replicate 2 (5 : ℝ)) :=
  ⟨by norm_num, C8_amended.1 5 2 3, C8_amended.2 5 2 3 (by norm_num)⟩

end BaselineFacts

lemma subsetB_iff (r2 r1 : List ℕ) :
    subsetB r2 r1 = true ↔ ∀ x ∈ r2, x ∈ r1 := by
  unfold subsetB
  rw [List.all_eq_true]
  constructor
  · intro h x hx
    simpa using h x hx
  · intro h x hx
    simpa using h x hx

lemma getD_set_false_self (v : List Bool) (j : ℕ) :
    (v.set j false).getD j false = false := by
  by_cases hj : j < v.length
  · exact getD_set_self v j false false hj
  · rw [List.getD_eq_getElem?_getD, List.getElem?_set]
    rw [if_pos rfl, if_neg hj]
    rfl

/-- Effect of the inner discard loop on one flag. -/
lemma innerLoop_getD (R : List (List ℕ)) (i : ℕ) (js : List ℕ) (valid : List Bool)
    (j : ℕ) :
    ((js.foldl (fun v j' =>
        if i ≠ j' ∧ subsetB (R.getD j' []) (R.getD i []) = true then v.set j' false
        else v) valid)).getD j false =
      if j ∈ js ∧ i ≠ j ∧ subsetB (R.getD j []) (R.getD i []) = true then false
      else valid.getD j false := by
  induction js generalizing valid with
  | nil => simp
  | cons j'' js ih =>
      rw [List.foldl_cons, ih]
      by_cases hmem : j ∈ js ∧ i ≠ j ∧ subsetB (R.getD j []) (R.getD i []) = true
      · rw [if_pos hmem, if_pos ⟨List.mem_cons_of_mem _ hmem.1, hmem.2⟩]
      · rw [if_neg hmem]
        by_cases hj : j = j''
        · subst hj
          by_cases hcond : i ≠ j ∧ subsetB (R.getD j []) (R.getD i []) = true
          · rw [if_pos hcond, if_pos ⟨List.mem_cons_self j js, hcond⟩,
              getD_set_false_self]
          · rw [if_neg hcond, if_neg (by tauto)]
        · have hrhs : ¬ (j ∈ j'' :: js ∧ i ≠ j ∧
              subsetB (R.getD j []) (R.getD i []) = true) := by
            intro hc
            rcases List.mem_cons.mp hc.1 with h | h
            · exact hj h
            · exact hmem ⟨h, hc.2⟩
          rw [if_neg hrhs]
          by_cases hcond : i ≠ j'' ∧ subsetB (R.getD j'' []) (R.getD i []) = true
          · rw [if_pos hcond, getD_set_ne valid j'' j false false (fun he => hj he.symm)]
          · rw [if_neg hcond]

/-- Effect of the outer discard loop on one flag. -/
lemma outerLoop_getD (R : List (List ℕ)) (is : List ℕ) (valid : List Bool) (j : ℕ)
    (hj : j < R.length) :
    ((is.foldl (fun v i =>
        (List.range R.length).foldl (fun v j' =>
          if i ≠ j' ∧ subsetB (R.getD j' []) (R.getD i []) = true then v.set j' false
          else v) v) valid)).getD j false =
      if ∃ i ∈ is, i ≠ j ∧ subsetB (R.getD j []) (R.getD i []) = true then false
      else valid.getD j false := by
  induction is generalizing valid with
  | nil => simp
  | cons i'' is ih =>
      rw [List.foldl_cons, ih, innerLoop_getD]
      by_cases hex : ∃ i ∈ is, i ≠ j ∧ subsetB (R.getD j []) (R.getD i []) = true
      · rw [if_pos hex, if_pos (by
          obtain ⟨i, hi, hc⟩ := hex
          exact ⟨i, List.mem_cons_of_mem _ hi, hc⟩)]
      · rw [if_neg hex]
        by_cases hc : i'' ≠ j ∧ subsetB (R.getD j []) (R.getD i'' []) = true
        · rw [if_pos ⟨List.mem_range.mpr hj, hc⟩,
            if_pos ⟨i'', List.mem_cons_self i'' is, hc⟩]
        · rw [if_neg (by tauto), if_neg (by
            intro hcc
            obtain ⟨i, hi, hcd⟩ := hcc
            rcases List.mem_cons.mp hi with h | h
            · exact hc (h ▸ hcd)
            · exact hex ⟨i, h, hcd⟩)]

/-- The final validity flag of range `j`: set iff no other range contains it. -/
lemma validMarks_getD (R : List (List ℕ)) (j : ℕ) (hj : j < R.length) :
    (validMarks R).getD j false = true ↔
      ∀ i < R.length, i ≠ j → ¬ subsetB (R.getD j []) (R.getD i []) = true := by
  unfold validMarks
  rw [outerLoop_getD R (List.range R.length) _ j hj]
  by_cases hex : ∃ i ∈ List.range R.length, i ≠ j ∧
      subsetB (R.getD j []) (R.getD i []) = true
  · rw [if_pos hex]
    apply iff_of_false (by simp)
    intro hall
    obtain ⟨i, hi, hne, hsub⟩ := hex
    exact hall i (List.mem_range.mp hi) hne hsub
  · rw [if_neg hex, getD_replicate_lt true false _ j hj]
    apply iff_of_true rfl
    intro i hi hne hsub
    exact hex ⟨i, List.mem_range.mpr hi, hne, hsub⟩

lemma getD_eq_getElem {α : Type} (l : List α) (j : ℕ) (d : α) (hj : j < l.length) :
    l.getD j d = l[j] := by
  rw [List.getD_eq_getElem?_getD, List.getElem?_eq_getElem hj]
  rfl

lemma survivorIdx_nodup (R : List (List ℕ)) : (survivorIdx R).Nodup :=
  (List.nodup_range R.length).filter _

lemma survivorIdx_mem (R : List (List ℕ)) (j : ℕ) :
    j ∈ survivorIdx R ↔ j < R.length ∧ (validMarks R).getD j false = true := by
  unfold survivorIdx
  rw [List.mem_filter, List.mem_range]

lemma length_keepValid (R : List (List ℕ)) :
    (keepValid R).length = (survivorIdx R).length := by
  unfold keepValid
  rw [List.length_map]

lemma keepValid_getD (R : List (List ℕ)) (x : ℕ) (hx : x < (keepValid R).length) :
    (keepValid R).getD x [] =
      R.getD ((survivorIdx R).getD x 0) [] := by
  have hx' : x < (survivorIdx R).length := by
    rw [← length_keepValid]
    exact hx
  unfold keepValid
  rw [getD_eq_getElem _ x [] (by rw [List.length_map]; exact hx'),
    List.getElem_map, getD_eq_getElem _ x 0 hx']

lemma assignAux_succ (survivors : List (List ℕ)) (s n : ℕ) :
    assignAux survivors s (n + 1) =
      if (survivors.getD n []).contains s then some (n + 1)
      else assignAux survivors s n := by
  unfold assignAux
  rw [List.range_succ, List.foldl_append, List.foldl_cons, List.foldl_nil]

lemma assignAux_none_iff (survivors : List (List ℕ)) (s n : ℕ) :
    assignAux survivors s n = none ↔ ∀ j < n, s ∉ survivors.getD j [] := by
  induction n with
  | zero =>
      apply iff_of_true rfl
      intro j hj
      omega
  | succ n ih =>
      rw [assignAux_succ]
      by_cases hc : (survivors.getD n []).contains s = true
      · rw [if_pos hc]
        apply iff_of_false (by simp)
        intro hall
        exact hall n (by omega) (List.elem_iff.mp hc)
      · rw [if_neg hc, ih]
        constructor
        · intro hall j hj
          by_cases hjn : j = n
          · subst hjn
            intro hmem
            exact hc (List.elem_iff.mpr hmem)
          · exact hall j (by omega)
        · intro hall j hj
          exact hall j (by omega)

lemma assignAux_some (survivors : List (List ℕ)) (s n w : ℕ)
    (h : assignAux survivors s n = some w) :
    1 ≤ w ∧ w ≤ n ∧ s ∈ survivors.getD (w - 1) [] := by
  induction n with
  | zero => exact absurd h (by simp [assignAux])
  | succ n ih =>
      rw [assignAux_succ] at h
      by_cases hc : (survivors.getD n []).contains s = true
      · rw [if_pos hc] at h
        have hw : w = n + 1 := by
          have := Option.some.inj h
          omega
        subst hw
        refine ⟨by omega, le_rfl, ?_⟩
        have : n + 1 - 1 = n := by omega
        rw [this]
        exact List.elem_iff.mp hc
      · rw [if_neg hc] at h
        obtain ⟨h1, h2, h3⟩ := ih h
        exact ⟨h1, by omega, h3⟩

/-- C4: after the subset-merge step no surviving window's index set is a
strict superset of another surviving window's index set, and the sequential
assignment gives every trace sample at most one window id — an id `w` with
`1 ≤ w ≤ #survivors` naming a surviving window that indeed contains the
sample, or no id at all when no surviving window contains it. -/
theorem C4_merge_invariant (R : List (List ℕ)) :
    (∀ x y, x < (keepValid R).length → y < (keepValid R).length →
      ¬ ((∀ s ∈ (keepValid R).getD y [], s ∈ (keepValid R).getD x []) ∧
          ∃ s ∈ (keepValid R).getD x [], s ∉ (keepValid R).getD y [])) ∧
    (∀ s w1 w2, assignWindow (keepValid R) s = some w1 →
      assignWindow (keepValid R) s = some w2 → w1 = w2) ∧
    (∀ s w, assignWindow (keepValid R) s = some w →
      1 ≤ w ∧ w ≤ (keepValid R).length ∧ s ∈ (keepValid R).getD (w - 1) []) ∧
    (∀ s, assignWindow (keepValid R) s = none ↔
      ∀ j < (keepValid R).length, s ∉ (keepValid R).getD j []) := by
  refine ⟨?_, ?_, ?_, ?_⟩
  · intro x y hx hy hcontra
    obtain ⟨hsub, s, hsx, hsy⟩ := hcontra
    by_cases hxy : x = y
    · subst hxy
      exact hsy hsx
    · have hx' : x < (survivorIdx R).length := by rw [← length_keepValid]; exact hx
      have hy' : y < (survivorIdx R).length := by rw [← length_keepValid]; exact hy
      have hix := keepValid_getD R x hx
      have hiy := keepValid_getD R y hy
      have hmemx : (survivorIdx R).getD x 0 ∈ survivorIdx R := by
        rw [getD_eq_getElem _ x 0 hx']
        exact List.getElem_mem hx'
      have hmemy : (survivorIdx R).getD y 0 ∈ survivorIdx R := by
        rw [getD_eq_getElem _ y 0 hy']
        exact List.getElem_mem hy'
      obtain ⟨hjx, hvx⟩ := (survivorIdx_mem R _).mp hmemx
      obtain ⟨hjy, hvy⟩ := (survivorIdx_mem R _).mp hmemy
      have hne : (survivorIdx R).getD x 0 ≠ (survivorIdx R).getD y 0 := by
        rw [getD_eq_getElem _ x 0 hx', getD_eq_getElem _ y 0 hy']
        intro he
        exact hxy (((survivorIdx_nodup R).getElem_inj_iff).mp he)
      have hsubB : subsetB (R.getD ((survivorIdx R).getD y 0) [])
          (R.getD ((survivorIdx R).getD x 0) []) = true := by
        rw [subsetB_iff]
        intro a ha
        rw [← hix]
        apply hsub
        rw [hiy]
        exact ha
      exact ((validMarks_getD R _ hjy).mp hvy) _ hjx hne hsubB
  · intro s w1 w2 h1 h2
    rw [h1] at h2
    exact Option.some.inj h2
  · intro s w h
    exact assignAux_some (keepValid R) s (keepValid R).length w h
  · intro s
    exact assignAux_none_iff (keepValid R) s (keepValid R).length

/-- Witness for `C4_merge_invariant` on the ranges `[[0,1,2],[1,2],[5,6]]`:
the enclosed range `[1,2]` is discarded, `[[0,1,2],[5,6]]` survive, and
sample 5 is assigned to window 2, which contains it. -/
theorem C4_witness :
    (0 < (keepValid [[0, 1, 2], [1, 2], [5, 6]]).length) ∧
      (1 < (keepValid [[0, 1, 2], [1, 2], [5, 6]]).length) ∧
      ¬ ((∀ s ∈ (keepValid [[0, 1, 2], [1, 2], [5, 6]]).getD 1 [],
            s ∈ (keepValid [[0, 1, 2], [1, 2], [5, 6]]).getD 0 []) ∧
          ∃ s ∈ (keepValid [[0, 1, 2], [1, 2], [5, 6]]).getD 0 [],
            s ∉ (keepValid [[0, 1, 2], [1, 2], [5, 6]]).getD 1 []) ∧
      (assignWindow (keepValid [[0, 1, 2], [1, 2], [5, 6]]) 5 = some 2) ∧
      (1 ≤ 2 ∧ 2 ≤ (keepValid [[0, 1, 2], [1, 2], [5, 6]]).length ∧
        5 ∈ (keepValid [[0, 1, 2], [1, 2], [5, 6]]).getD (2 - 1) []) :=
  ⟨by decide, by decide,
    (C4_merge_invariant [[0, 1, 2], [1, 2], [5, 6]]).1 0 1 (by decide) (by decide),
    by decide,
    (C4_merge_invariant [[0, 1, 2], [1, 2], [5, 6]]).2.2.1 5 2 (by decide)⟩

/-- C10: the discard test uses non-strict inclusion, so two distinct windows
with set-equal index ranges each mark the other as a subset and both are
discarded; in the two-window case no range survives and every sample is left
without a window id. -/
theorem C10_equal_ranges_both_discarded :
    (∀ (R : List (List ℕ)) (j k : ℕ), j < R.length → k < R.length → j ≠ k →
      (∀ x, x ∈ R.getD j [] ↔ x ∈ R.getD k []) →
      (validMarks R).getD j false = false ∧ (validMarks R).getD k false = false) ∧
    (∀ (r1 r2 : List ℕ), (∀ x, x ∈ r1 ↔ x ∈ r2) →
      keepValid [r1, r2] = [] ∧ ∀ s, assignWindow (keepValid [r1, r2]) s = none) := by
  constructor
  · intro R j k hj hk hjk heq
    have hsub1 : subsetB (R.getD j []) (R.getD k []) = true := by
      rw [subsetB_iff]
      intro x hx
      exact (heq x).mp hx
    have hsub2 : subsetB (R.getD k []) (R.getD j []) = true := by
      rw [subsetB_iff]
      intro x hx
      exact (heq x).mpr hx
    constructor
    · by_cases hv : (validMarks R).getD j false = true
      · exact absurd hsub1 ((validMarks_getD R j hj).mp hv k hk (Ne.symm hjk))
      · exact Bool.not_eq_true _ ▸ (Bool.eq_false_iff.mpr (fun h => hv h))
    · by_cases hv : (validMarks R).getD k false = true
      · exact absurd hsub2 ((validMarks_getD R k hk).mp hv j hj hjk)
      · exact Bool.not_eq_true _ ▸ (Bool.eq_false_iff.mpr (fun h => hv h))
  · intro r1 r2 heq
    have h01 : (validMarks [r1, r2]).getD 0 false = false ∧
        (validMarks [r1, r2]).getD 1 false = false := by
      have hsub1 : subsetB ([r1, r2].getD 0 []) ([r1, r2].getD 1 []) = true := by
        rw [subsetB_iff]
        intro x hx
        exact (heq x).mp hx
      have hsub2 : subsetB ([r1, r2].getD 1 []) ([r1, r2].getD 0 []) = true := by
        rw [subsetB_iff]
        intro x hx
        exact (heq x).mpr hx
      constructor
      · by_cases hv : (validMarks [r1, r2]).getD 0 false = true
        · exact absurd hsub1 (((validMarks_getD [r1, r2] 0 (by norm_num)).mp hv) 1
            (by norm_num) (by norm_num))
        · exact Bool.eq_false_iff.mpr (fun h => hv h)
      · by_cases hv : (validMarks [r1, r2]).getD 1 false = true
        · exact absurd hsub2 (((validMarks_getD [r1, r2] 1 (by norm_num)).mp hv) 0
            (by norm_num) (by norm_num))
        · exact Bool.eq_false_iff.mpr (fun h => hv h)
    have hkv : keepValid [r1, r2] = [] := by
      unfold keepValid survivorIdx
      rw [show List.range ([r1, r2] : List (List ℕ)).length = [0, 1] from rfl]
      rw [show List.filter (fun j => (validMarks [r1, r2]).getD j false) [0, 1]
          = [] from by
        rw [List.filter_cons, List.filter_cons, List.filter_nil]
        rw [h01.1, h01.2]
        rfl]
      rfl
    refine ⟨hkv, ?_⟩
    intro s
    rw [hkv]
    rfl

/-- Witness for `C10_equal_ranges_both_discarded` on duplicated ranges
`[[2,3,4],[2,3,4]]`: both flags are cleared, no window survives, and sample 3
gets no window id. -/
theorem C10_witness :
    ((0 : ℕ) < ([[2, 3, 4], [2, 3, 4]] : List (List ℕ)).length) ∧
      (1 < ([[2, 3, 4], [2, 3, 4]] : List (List ℕ)).length) ∧ (0 : ℕ) ≠ 1 ∧
      ((validMarks [[2, 3, 4], [2, 3, 4]]).getD 0 false = false ∧
        (validMarks [[2, 3, 4], [2, 3, 4]]).getD 1 false = false) ∧
      keepValid [[2, 3, 4], [2, 3, 4]] = [] ∧
      assignWindow (keepValid [[2, 3, 4], [2, 3, 4]]) 3 = none :=
  ⟨by decide, by decide, by decide,
    C10_equal_ranges_both_discarded.1 [[2, 3, 4], [2, 3, 4]] 0 1 (by decide) (by decide)
      (by decide) (fun x => Iff.rfl),
    (C10_equal_ranges_both_discarded.2 [2, 3, 4] [2, 3, 4] (fun x => Iff.rfl)).1,
    (C10_equal_ranges_both_discarded.2 [2, 3, 4] [2, 3, 4] (fun x => Iff.rfl)).2 3⟩

lemma length_dropLeadingZero (ps : List ℤ) :
    (dropLeadingZero ps).length = ps.length - (if ps.headD 1 = 0 then 1 else 0) := by
  cases ps with
  | nil => rfl
  | cons p rest =>
      by_cases hp : p = 0
      · simp [dropLeadingZero, hp]
      · simp [dropLeadingZero, hp]

/-- C7, claim as stated, refuted twice on the trace `timew = [0, 1, 2, 3]`:
(i) the manual time `2.3` converts to index 3 (`np.int_` truncates
`2.3 / (3/4) = 3.07`), not to the nearest index 2 under the average time step
`1`; (ii) with manual positions `[2, 0]` the candidate count is 2, although
one candidate lands exactly on the first sample, so the claimed count would
be `2 - 1 = 1` — only a *leading* zero index is discarded. -/
theorem C7_counterexample :
    (manualPeakIndices [0, 1, 2, 3] [23 / 10] = [3] ∧
      nearestIndexSpec [0, 1, 2, 3] (23 / 10) = 2 ∧ (3 : ℤ) ≠ 2) ∧
    (manualPeakIndices [0, 1, 2, 3] [2, 0] = [2, 0] ∧
      List.countP (fun z => decide (z = 0)) (manualPeakIndices [0, 1, 2, 3] [2, 0]) = 1 ∧
      (peakCandidates (fun _ => []) [] [0, 1, 2, 3] (some [2, 0])).length = 2 ∧
      (2 : ℕ) ≠ 2 - 1) := by
  have h1 : manualPeakIndices [0, 1, 2, 3] [23 / 10] = [3] := by
    simp only [manualPeakIndices, List.map, truncToZero]
    norm_num
  have h2 : manualPeakIndices [0, 1, 2, 3] [2, 0] = [2, 0] := by
    simp only [manualPeakIndices, List.map, truncToZero]
    norm_num
  refine ⟨⟨h1, ?_, by norm_num⟩, h2, ?_, ?_, by norm_num⟩
  · simp only [nearestIndexSpec]
    rw [round_eq]
    norm_num
  · rw [h2]
    rfl
  · simp only [peakCandidates, h2]
    rfl

/-- C7 (amended): with manual positions the detector and the intensity are
never consulted; each supplied position yields exactly one candidate index,
namely `np.int_((p - timew[0]) / ((timew[-1] - timew[0]) / len(timew)))` —
truncation toward zero using the span over `len(timew)` (not nearest-integer
rounding by the mean time step); and the resulting candidate count is the
number of supplied positions minus one exactly when the *first* converted
index is 0, else the full count (zero indices in later positions are kept). -/
theorem C7_amended :
    (∀ (det det' : List ℚ → List ℤ) (norm norm' timew : List ℚ) (m : List ℚ),
      peakCandidates det norm timew (some m) = peakCandidates det' norm' timew (some m)) ∧
    (∀ (timew m : List ℚ), (manualPeakIndices timew m).length = m.length) ∧
    (∀ (timew m : List ℚ),
      (peakCandidates (fun _ => []) [] timew (some m)).length =
        m.length - (if (manualPeakIndices timew m).headD 1 = 0 then 1 else 0)) := by
  refine ⟨fun det det' norm norm' timew m => rfl, ?_, ?_⟩
  · intro timew m
    simp [manualPeakIndices]
  · intro timew m
    simp only [peakCandidates]
    rw [length_dropLeadingZero]
    simp [manualPeakIndices]

lemma length_buildP0 (v : WindowProps) : (buildP0 v).length = 4 * v.numPeaks := by
  unfold buildP0
  have haux : ∀ (n : ℕ) (init : List ℚ),
      ((List.range n).foldl (fun p0 i =>
        p0 ++ [v.amplitude.getD i 0, v.location.getD i 0,
          max (v.width.getD i 0 / 4) (1 / 20), 0]) init).length
        = init.length + 4 * n := by
    intro n
    induction n with
    | zero => intro init; simp
    | succ k ih =>
        intro init
        rw [List.range_succ, List.foldl_append, List.foldl_cons, List.foldl_nil,
          List.length_append, ih init]
        simp only [List.length_cons, List.length_nil]
        omega
  rw [haux v.numPeaks []]
  simp

lemma estimatePeakParams_aux (solver : WindowProps → Option (List ℚ))
    (windows : List (ℕ × WindowProps)) (acc : List (ℕ × List ℚ) × List ℕ) :
    windows.foldl (fun acc kv =>
      if 0 < (buildP0 kv.2).length then
        match solver kv.2 with
        | some popt => (acc.1 ++ [(kv.1, popt)], acc.2)
        | none => (acc.1, acc.2 ++ [kv.1])
      else acc) acc =
      (acc.1 ++ windows.filterMap (fun kv =>
          if 0 < (buildP0 kv.2).length then
            (solver kv.2).map (fun popt => (kv.1, popt))
          else none),
        acc.2 ++ windows.filterMap (fun kv =>
          if 0 < (buildP0 kv.2).length ∧ solver kv.2 = none then some kv.1
          else none)) := by
  induction windows generalizing acc with
  | nil => simp
  | cons kv ws ih =>
      cases hsol : solver kv.2 with
      | some popt =>
          by_cases hp : 0 < (buildP0 kv.2).length
          · rw [List.foldl_cons, ih]
            simp [List.filterMap_cons, hsol, hp]
          · rw [List.foldl_cons, ih]
            simp [List.filterMap_cons, hsol, hp]
      | none =>
          by_cases hp : 0 < (buildP0 kv.2).length
          · rw [List.foldl_cons, ih]
            simp [List.filterMap_cons, hsol, hp]
          · rw [List.foldl_cons, ih]
            simp [List.filterMap_cons, hsol, hp]

/-- C6: the per-window fitting loop realises partial-failure semantics — the
fitted outputs are exactly the solver results of the windows with at least one
candidate whose fit converged, in window order and unchanged by failures
elsewhere; the warning list records exactly the windows whose fit raised
non-convergence; and a window with zero candidates appears in neither list (it
is skipped without error). -/
theorem C6_partial_failure (solver : WindowProps → Option (List ℚ))
    (windows : List (ℕ × WindowProps)) :
    (estimatePeakParams solver windows).1 =
        windows.filterMap (fun kv =>
          if 0 < (buildP0 kv.2).length then
            (solver kv.2).map (fun popt => (kv.1, popt))
          else none) ∧
      (estimatePeakParams solver windows).2 =
        windows.filterMap (fun kv =>
          if 0 < (buildP0 kv.2).length ∧ solver kv.2 = none then some kv.1
          else none) ∧
      (∀ k w popt, (k, w) ∈ windows → 0 < w.numPeaks → solver w = some popt →
        (k, popt) ∈ (estimatePeakParams solver windows).1) ∧
      (∀ k w, (k, w) ∈ windows → 0 < w.numPeaks → solver w = none →
        k ∈ (estimatePeakParams solver windows).2) ∧
      (∀ k w, (windows.map Prod.fst).Nodup → (k, w) ∈ windows → w.numPeaks = 0 →
        (∀ popt, (k, popt) ∉ (estimatePeakParams solver windows).1) ∧
        k ∉ (estimatePeakParams solver windows).2) := by
  have h1 : (estimatePeakParams solver windows).1 =
      windows.filterMap (fun kv =>
        if 0 < (buildP0 kv.2).length then
          (solver kv.2).map (fun popt => (kv.1, popt))
        else none) := by
    unfold estimatePeakParams
    rw [estimatePeakParams_aux]
    simp
  have h2 : (estimatePeakParams solver windows).2 =
      windows.filterMap (fun kv =>
        if 0 < (buildP0 kv.2).length ∧ solver kv.2 = none then some kv.1
        else none) := by
    unfold estimatePeakParams
    rw [estimatePeakParams_aux]
    simp
  refine ⟨h1, h2, ?_, ?_, ?_⟩
  · intro k w popt hmem hpk hsol
    rw [h1]
    rw [List.mem_filterMap]
    refine ⟨(k, w), hmem, ?_⟩
    rw [if_pos (by rw [length_buildP0]; show 0 < 4 * w.numPeaks; omega), hsol]
    rfl
  · intro k w hmem hpk hsol
    rw [h2]
    rw [List.mem_filterMap]
    refine ⟨(k, w), hmem, ?_⟩
    rw [if_pos ⟨by rw [length_buildP0]; show 0 < 4 * w.numPeaks; omega, hsol⟩]
  · intro k w hnodup hmem hpk0
    constructor
    · intro popt hmem'
      rw [h1, List.mem_filterMap] at hmem'
      obtain ⟨kv, hkv, heq⟩ := hmem'
      by_cases hp : 0 < (buildP0 kv.2).length
      · rw [if_pos hp] at heq
        obtain ⟨popt', hsol', hpair⟩ := Option.map_eq_some'.mp heq
        have hk : kv.1 = k := congrArg Prod.fst hpair
        have hkveq : kv = (k, w) :=
          List.inj_on_of_nodup_map hnodup hkv hmem hk
        rw [length_buildP0, hkveq] at hp
        exact absurd hpk0 (by
          intro h0
          rw [show ((k, w) : ℕ × WindowProps).2 = w from rfl, h0] at hp
          omega)
      · rw [if_neg hp] at heq
        exact Option.noConfusion heq
    · intro hmem'
      rw [h2, List.mem_filterMap] at hmem'
      obtain ⟨kv, hkv, heq⟩ := hmem'
      by_cases hp : 0 < (buildP0 kv.2).length ∧ solver kv.2 = none
      · rw [if_pos hp] at heq
        have hk : kv.1 = k := Option.some.inj heq
        have hkveq : kv = (k, w) :=
          List.inj_on_of_nodup_map hnodup hkv hmem hk
        have hp' := hp.1
        rw [length_buildP0, hkveq] at hp'
        exact absurd hpk0 (by
          intro h0
          rw [show ((k, w) : ℕ × WindowProps).2 = w from rfl, h0] at hp'
          omega)
      · rw [if_neg hp] at heq
        exact Option.noConfusion heq

/-- Witness for `C6_partial_failure`: in the demonstration batch, window 1
succeeds and its output is present, window 2 fails and is warned about,
window 3 has zero candidates and is skipped without a warning. -/
theorem C6_witness :
    ((1, fitDemoW1) ∈ fitDemoWindows) ∧ 0 < fitDemoW1.numPeaks ∧
      fitDemoSolver fitDemoW1 = some [1, 2, 3, 4] ∧
      ((1, ([1, 2, 3, 4] : List ℚ)) ∈ (estimatePeakParams fitDemoSolver fitDemoWindows).1) ∧
      ((2, fitDemoW2) ∈ fitDemoWindows) ∧ 0 < fitDemoW2.numPeaks ∧
      fitDemoSolver fitDemoW2 = none ∧
      (2 ∈ (estimatePeakParams fitDemoSolver fitDemoWindows).2) ∧
      (fitDemoWindows.map Prod.fst).Nodup ∧ ((3, fitDemoW3) ∈ fitDemoWindows) ∧
      fitDemoW3.numPeaks = 0 ∧
      (3 ∉ (estimatePeakParams fitDemoSolver fitDemoWindows).2) :=
  ⟨by decide, by decide, by decide,
    (C6_partial_failure fitDemoSolver fitDemoWindows).2.2.1 1 fitDemoW1 [1, 2, 3, 4]
      (by decide) (by decide) (by decide),
    by decide, by decide, by decide,
    (C6_partial_failure fitDemoSolver fitDemoWindows).2.2.2.1 2 fitDemoW2
      (by decide) (by decide) (by decide),
    by decide, by decide, by decide,
    ((C6_partial_failure fitDemoSolver fitDemoWindows).2.2.2.2 3 fitDemoW3
      (by decide) (by decide) (by decide)).2⟩

lemma sum_map_affine (pts : List (ℚ × ℚ)) (a b : ℚ)
    (h : ∀ p ∈ pts, p.2 = a * p.1 + b) :
    (pts.map Prod.snd).sum = a * (pts.map Prod.fst).sum + b * pts.length := by
  induction pts with
  | nil => simp
  | cons p ps ih =>
      simp only [List.map_cons, List.sum_cons, List.length_cons]
      rw [ih (fun q hq => h q (List.mem_cons_of_mem p hq)),
        h p (List.mem_cons_self p ps)]
      push_cast
      ring

lemma ymean_affine (pts : List (ℚ × ℚ)) (a b : ℚ) (hne : pts ≠ [])
    (h : ∀ p ∈ pts, p.2 = a * p.1 + b) :
    ymean pts = a * xmean pts + b := by
  have hn : (pts.length : ℚ) ≠ 0 := by
    have := List.length_pos.mpr hne
    positivity
  unfold ymean xmean
  rw [sum_map_affine pts a b h]
  field_simp

lemma sxy_affine (pts : List (ℚ × ℚ)) (a b : ℚ)
    (h : ∀ p ∈ pts, p.2 = a * p.1 + b) (hy : ymean pts = a * xmean pts + b) :
    sxy pts = a * sxx pts := by
  unfold sxy sxx
  rw [show (pts.map (fun p => (p.1 - xmean pts) * (p.2 - ymean pts)))
      = pts.map (fun p => a * (p.1 - xmean pts) ^ 2) from
    List.map_congr_left (fun p hp => by rw [h p hp, hy]; ring),
    List.sum_map_mul_left]

lemma syy_affine (pts : List (ℚ × ℚ)) (a b : ℚ)
    (h : ∀ p ∈ pts, p.2 = a * p.1 + b) (hy : ymean pts = a * xmean pts + b) :
    syy pts = a ^ 2 * sxx pts := by
  unfold syy sxx
  rw [show (pts.map (fun p => (p.2 - ymean pts) ^ 2))
      = pts.map (fun p => a ^ 2 * (p.1 - xmean pts) ^ 2) from
    List.map_congr_left (fun p hp => by rw [h p hp, hy]; ring),
    List.sum_map_mul_left]

/-- On exactly affine data with at least two distinct abscissae,
`linregress` recovers the affine coefficients and reports `r² = 1`. -/
lemma linregress_exact (pts : List (ℚ × ℚ)) (a b : ℚ) (hne : pts ≠ [])
    (hfit : ∀ p ∈ pts, p.2 = a * p.1 + b) (hsxx : sxx pts ≠ 0) (ha : a ≠ 0) :
    linregressSlope pts = a ∧ linregressIntercept pts = b ∧ linregressRsq pts = 1 := by
  have hy := ymean_affine pts a b hne hfit
  have hxy := sxy_affine pts a b hfit hy
  have hyy := syy_affine pts a b hfit hy
  have hslope : linregressSlope pts = a := by
    unfold linregressSlope
    rw [hxy]
    field_simp
  refine ⟨hslope, ?_, ?_⟩
  · unfold linregressIntercept
    rw [hslope, hy]
    ring
  · unfold linregressRsq
    rw [hxy, hyy]
    field_simp
    ring

/-- Evaluation of `roundHalfEven` away from ties. -/
lemma roundHalfEven_eval (x : ℚ) (z : ℤ) (h1 : Int.fract x ≠ 1 / 2)
    (h2 : round x = z) : roundHalfEven x = z := by
  unfold roundHalfEven
  rw [if_neg h1, h2]

/-- C1, claim as stated, refuted twice: (i) `calibrate`
(`src/hplc/cal_curves.py`) rounds its outputs, so on the points
`{(1, 0.001), (2, 0.003)}` it returns slope `0` although the least-squares
slope is `0.002`; (ii) the calibration block of `src/UPLC_CEC.py` passes area
as `x` and concentration as `y`, so on the claim's points
`{(1mM, 100), (2mM, 200), (3mM, 300)}` it stores slope `0.01`, not `100`. -/
theorem C1_counterexample :
    ((calibrate [(1, 1 / 1000), (2, 3 / 1000)]).1 = 0 ∧
      linregressSlope [(1, 1 / 1000), (2, 3 / 1000)] = 1 / 500 ∧
      (0 : ℚ) ≠ 1 / 500) ∧
    ((uplcCalibration [(1, 100), (2, 200), (3, 300)]).1 = 1 / 100 ∧
      (1 / 100 : ℚ) ≠ 100) := by
  have hslope : linregressSlope [(1, 1 / 1000), (2, 3 / 1000)] = 1 / 500 := by
    norm_num [linregressSlope, sxx, sxy, xmean, ymean]
  refine ⟨⟨?_, hslope, by norm_num⟩, ⟨?_, by norm_num⟩⟩
  · show roundDec 2 (linregressSlope [(1, 1 / 1000), (2, 3 / 1000)]) = 0
    rw [hslope]
    unfold roundDec
    rw [roundHalfEven_eval ((1 : ℚ) / 500 * 10 ^ 2) 0
      (by rw [show (1 : ℚ) / 500 * 10 ^ 2 = 1 / 5 by norm_num, Int.fract]; norm_num)
      (by rw [show (1 : ℚ) / 500 * 10 ^ 2 = 1 / 5 by norm_num, round_eq]; norm_num)]
    norm_num
  · show linregressSlope
      ([((1 : ℚ), (100 : ℚ)), (2, 200), (3, 300)].map (fun p => (p.2, p.1))) = 1 / 100
    norm_num [linregressSlope, sxx, sxy, xmean, ymean]

/-- C1 (amended): both regressions are ordinary least squares, but
`calibrate` (`src/hplc/cal_curves.py`) regresses area (`y`) on concentration
(`x`) and returns slope/intercept rounded to 2 decimals and R² (the squared
Pearson correlation) rounded to 4 — on the claim's exactly linear points this
gives `(100, 0, 1)`; the calibration block of `src/UPLC_CEC.py` passes
`linregress(area, concentration)`, regressing concentration on area, and
stores `(0.01, 0, 1)` on those points.  On exactly affine data with nonzero
slope and at least two distinct concentrations, the least-squares fit
recovers the affine coefficients with R² = 1. -/
theorem C1_amended :
    (∀ (pts : List (ℚ × ℚ)) (a b : ℚ), pts ≠ [] → (∀ p ∈ pts, p.2 = a * p.1 + b) →
      sxx pts ≠ 0 → a ≠ 0 →
      linregressSlope pts = a ∧ linregressIntercept pts = b ∧ linregressRsq pts = 1) ∧
    calibrate [(1, 100), (2, 200), (3, 300)] = (100, 0, 1) ∧
    uplcCalibration [(1, 100), (2, 200), (3, 300)] = (1 / 100, 0, 1) := by
  refine ⟨linregress_exact, ?_, ?_⟩
  · have hfit := linregress_exact [(1, 100), (2, 200), (3, 300)] 100 0
      (by simp)
      (by
        intro p hp
        simp only [List.mem_cons, List.not_mem_nil, or_false] at hp
        rcases hp with h | h | h <;> (rw [h]; norm_num))
      (by norm_num [sxx, xmean]) (by norm_num)
    unfold calibrate
    rw [hfit.1, hfit.2.1, hfit.2.2]
    rw [roundDec_eq_self 2 (100 : ℚ) 10000 (by norm_num), roundDec_zero,
      roundDec_eq_self 4 (1 : ℚ) 10000 (by norm_num)]
  · have hfit := linregress_exact
      ([((1 : ℚ), (100 : ℚ)), (2, 200), (3, 300)].map (fun p => (p.2, p.1)))
      (1 / 100) 0
      (by simp)
      (by
        intro p hp
        simp only [List.map_cons, List.map_nil, List.mem_cons,
          List.not_mem_nil, or_false] at hp
        rcases hp with h | h | h <;> (rw [h]; norm_num))
      (by norm_num [sxx, xmean]) (by norm_num)
    unfold uplcCalibration
    rw [hfit.1, hfit.2.1, hfit.2.2]

/-- Witness for `C1_amended` on affine points `{(0, 1), (1, 3)}` with slope 2,
intercept 1. -/
theorem C1_witness :
    (([((0 : ℚ), (1 : ℚ)), (1, 3)] : List (ℚ × ℚ)) ≠ []) ∧
      sxx [(0, 1), (1, 3)] ≠ 0 ∧ (2 : ℚ) ≠ 0 ∧
      (linregressSlope [(0, 1), (1, 3)] = 2 ∧
        linregressIntercept [(0, 1), (1, 3)] = 1 ∧ linregressRsq [(0, 1), (1, 3)] = 1) :=
  ⟨by simp,
    by norm_num [sxx, xmean], by norm_num,
    C1_amended.1 [(0, 1), (1, 3)] 2 1 (by simp)
      (by
        intro p hp
        simp only [List.mem_cons, List.not_mem_nil, or_false] at hp
        rcases hp with h | h <;> (rw [h]; norm_num))
      (by norm_num [sxx, xmean]) (by norm_num)⟩

/-- C5, claim as stated, refuted twice: (i) `calculate_concentration`
(`src/hplc/calc_conc.py`) rounds to 2 decimals, so for area 1, intercept 0,
slope 3 it returns `0.33`, not `1/3`; (ii) the inline resolution of
`src/UPLC_CEC.py` divides by `np.abs(slope)`, so for a negative slope `-100`
and area 250 it returns `2.5` where `(area - intercept)/slope = -2.5`. -/
theorem C5_counterexample :
    (calculate_concentration 1 0 3 = 33 / 100 ∧ (33 / 100 : ℚ) ≠ (1 - 0) / 3) ∧
    (uplcResolveConcentration 250 0 (-100) = 5 / 2 ∧
      ((250 : ℚ) - 0) / (-100) = -(5 / 2) ∧ (5 / 2 : ℚ) ≠ -(5 / 2)) := by
  refine ⟨⟨?_, by norm_num⟩, ⟨?_, by norm_num, by norm_num⟩⟩
  · unfold calculate_concentration roundDec
    rw [roundHalfEven_eval (((1 : ℚ) - 0) / 3 * 10 ^ 2) 33
      (by rw [show ((1 : ℚ) - 0) / 3 * 10 ^ 2 = 100 / 3 by norm_num, Int.fract]
          norm_num)
      (by rw [show ((1 : ℚ) - 0) / 3 * 10 ^ 2 = 100 / 3 by norm_num, round_eq]
          norm_num)]
    norm_num
  · unfold uplcResolveConcentration
    norm_num

/-- C5 (amended): `calculate_concentration` returns
`round((area - intercept)/slope, 2)` — exact whenever the quotient is a
multiple of `0.01`, and in particular `2.5` on the claim's example — while the
inline resolution of `src/UPLC_CEC.py` computes `(area - intercept)/abs(slope)`,
which agrees with the claim's formula for positive slopes and negates it for
negative slopes.  Neither implementation contains an explicit zero-slope
guard. -/
theorem C5_amended :
    (∀ a b s : ℚ, 0 < s → uplcResolveConcentration a b s = (a - b) / s) ∧
    (∀ a b s : ℚ, s < 0 → uplcResolveConcentration a b s = -((a - b) / s)) ∧
    (∀ (a b s : ℚ) (z : ℤ), (a - b) / s * 10 ^ 2 = (z : ℚ) →
      calculate_concentration a b s = (a - b) / s) ∧
    calculate_concentration 250 0 100 = 5 / 2 ∧
    uplcResolveConcentration 250 0 100 = 5 / 2 := by
  have h1 : ∀ a b s : ℚ, 0 < s → uplcResolveConcentration a b s = (a - b) / s := by
    intro a b s hs
    unfold uplcResolveConcentration
    rw [abs_of_pos hs]
  have h3 : ∀ (a b s : ℚ) (z : ℤ), (a - b) / s * 10 ^ 2 = (z : ℚ) →
      calculate_concentration a b s = (a - b) / s := by
    intro a b s z hz
    unfold calculate_concentration
    exact roundDec_eq_self 2 _ z hz
  refine ⟨h1, ?_, h3, ?_, ?_⟩
  · intro a b s hs
    unfold uplcResolveConcentration
    rw [abs_of_neg hs]
    rw [div_neg]
  · rw [h3 250 0 100 250 (by norm_num)]
    norm_num
  · rw [h1 250 0 100 (by norm_num)]
    norm_num

/-- Witness for `C5_amended` at concrete slopes `2` and `-3`. -/
theorem C5_witness :
    ((0 : ℚ) < 2) ∧ uplcResolveConcentration 7 1 2 = (7 - 1) / 2 ∧
      ((-3 : ℚ) < 0) ∧ uplcResolveConcentration 7 1 (-3) = -((7 - 1) / (-3)) ∧
      (((7 : ℚ) - 1) / 2 * 10 ^ 2 = ((300 : ℤ) : ℚ)) ∧
      calculate_concentration 7 1 2 = (7 - 1) / 2 :=
  ⟨by norm_num, C5_amended.1 7 1 2 (by norm_num),
    by norm_num, C5_amended.2.1 7 1 (-3) (by norm_num),
    by norm_num, C5_amended.2.2.1 7 1 2 300 (by norm_num)⟩

/-- C9, claim as stated: the pipeline never mutates the caller's
time/intensity data.  Refuted at construction: passing the DataFrame
`[(0, 0, 5), (1, 0, 7)]` with the default `baselinecorrection=True` leaves the
caller's frame holding intensities `[0, 2]` — the shifted values, not the
originals. -/
theorem C9_counterexample :
    initCallerFrame [⟨0, 0, 5⟩, ⟨1, 0, 7⟩] true ≠ [⟨0, 0, 5⟩, ⟨1, 0, 7⟩] ∧
      initCallerFrame [⟨0, 0, 5⟩, ⟨1, 0, 7⟩] true = [⟨0, 0, 0⟩, ⟨1, 0, 2⟩] := by
  constructor
  · intro h
    have h0 := congrArg (fun l => (l.map Row.intensity).getD 0 0) h
    simp only [initCallerFrame, List.map, List.getD_cons_zero] at h0
    norm_num at h0
  · simp only [initCallerFrame, List.map, List.getD_cons_zero]
    norm_num

/-- C9 (amended): with `baselinecorrection=False` the caller's frame is left
unchanged, and even with the default `baselinecorrection=True` the time and
step columns are untouched; but with the default, construction from a
caller-supplied DataFrame rewrites the caller's intensity column in place to
`intensity - intensity[0]` (the frame is aliased, not copied).
`perform_background_correction` itself reads through `dataframe.copy()` and
writes nothing back. -/
theorem C9_amended :
    (∀ df : List Row, initCallerFrame df false = df) ∧
    (∀ df : List Row, (initCallerFrame df true).map Row.time = df.map Row.time ∧
      (initCallerFrame df true).map Row.step = df.map Row.step) ∧
    (∀ df : List Row, initCallerFrame df true =
      df.map (fun r =>
        { r with intensity := r.intensity - (df.map Row.intensity).getD 0 0 })) := by
  refine ⟨fun df => rfl, ?_, fun df => rfl⟩
  intro df
  have hform : initCallerFrame df true = df.map (fun r =>
      { r with intensity := r.intensity - (df.map Row.intensity).getD 0 0 }) := rfl
  constructor
  · rw [hform, List.map_map]
    rfl
  · rw [hform, List.map_map]
    rfl

end UPLC
